import Mathlib

/-
Verification of the offline-create synchronization queue of the mylife
frontend (apps/frontend/src/offlineSync/createQueue.ts and
apps/frontend/src/memoOfflineSync.ts), shallowly embedded in Lean.

JavaScript values that flow through JSON storage are modelled by the
inductive type JsValue.  The durable key-value store maps each key to a
StoredCell: the key can be absent, hold a string that JSON.parse rejects
(including the empty string, which the source also treats as missing via
its truthiness check), or hold a string that parses to a JsValue.  The
JSON.parse / JSON.stringify pair of the host platform is taken as a
faithful bijection between stored strings and parsed values, so the store
is modelled at the parsed level.
-/

/-- A JavaScript value as produced by JSON parsing: null, booleans,
numbers, strings, arrays and objects (ordered field lists). -/
inductive JsValue where
  | null : JsValue
  | bool (b : Bool) : JsValue
  | num (n : Int) : JsValue
  | str (s : String) : JsValue
  | arr (elems : List JsValue) : JsValue
  | obj (fields : List (String × JsValue)) : JsValue

/-- One cell of the durable store: the key is absent, holds a string
JSON.parse throws on (or the empty string, falsy in the source), or holds
a string parsing to the given value. -/
inductive StoredCell where
  | absent : StoredCell
  | malformed : StoredCell
  | jsonOf (value : JsValue) : StoredCell

/-- The durable key-value store capability (KeyValueStorage in the
source), modelled at the parsed-JSON level. -/
def KeyValueStorage : Type := String → StoredCell

/-- storage.setItem with an already serialized value. -/
def storageSet (storage : KeyValueStorage) (key : String) (value : JsValue) :
    KeyValueStorage :=
  fun k => if k = key then .jsonOf value else storage k

/-- A store holding a single key (used to state load theorems). -/
def mkStore (key : String) (value : JsValue) : KeyValueStorage :=
  fun k => if k = key then .jsonOf value else .absent

/-- JavaScript truthiness of a JSON-parsed value. -/
def jsTruthy : JsValue → Bool
  | .null => false
  | .bool b => b
  | .num n => decide (n ≠ 0)
  | .str s => decide (s ≠ "")
  | .arr _ => true
  | .obj _ => true

/-- Whether `typeof value` is the string "object" (true for null, arrays
and plain objects). -/
def jsTypeofObject : JsValue → Bool
  | .null => true
  | .arr _ => true
  | .obj _ => true
  | _ => false

/-- Property access `value[key]` on a parsed JSON value; `none` models the
JavaScript `undefined`.  For objects the last binding of the key wins, as
JSON.parse keeps the last duplicate field. -/
def jsObjLookupLast (fields : List (String × JsValue)) (key : String) :
    Option JsValue :=
  match fields with
  | [] => none
  | (k, v) :: rest =>
    match jsObjLookupLast rest key with
    | some w => some w
    | none => if k = key then some v else none

/-- Field access on any value: only objects expose the fields we model. -/
def jsGetField (value : JsValue) (key : String) : Option JsValue :=
  match value with
  | .obj fields => jsObjLookupLast fields key
  | _ => none

/-- True when `value[key]` is a string. -/
def isStrField (value : JsValue) (key : String) : Bool :=
  match jsGetField value key with
  | some (.str _) => true
  | _ => false

/-- True when `value[key]` is an array (Array.isArray). -/
def isArrField (value : JsValue) (key : String) : Bool :=
  match jsGetField value key with
  | some (.arr _) => true
  | _ => false

/- ## Generic offline create queue (offlineSync/createQueue.ts) -/

/-- A JavaScript Error object, reduced to its message. -/
structure JsError where
  message : String
  deriving DecidableEq, Repr

/-- A value a promise can reject with: an Error instance, or any other
JavaScript value (carrying a description for concreteness). -/
inductive RejectionValue where
  | errorInstance (e : JsError) : RejectionValue
  | nonErrorValue (descr : String) : RejectionValue
  deriving DecidableEq, Repr

/-- The catch clause of consumeCreateQueue:
`eventualError instanceof Error ? eventualError : new Error("queue sync failed")`. -/
def normalizeQueueError : RejectionValue → JsError
  | .errorInstance e => e
  | .nonErrorValue _ => { message := "queue sync failed" }

/-- OfflineCreateQueueEntry (current shape): client_id, payload and an
optional meta. -/
structure OfflineCreateQueueEntry (P M : Type) where
  client_id : String
  payload : P
  meta : Option M

/-- One success of a queue drain: the entry and the synced server record. -/
structure QueueConsumeSuccess (P M S : Type) where
  entry : OfflineCreateQueueEntry P M
  synced : S

/-- Result of consumeCreateQueue. -/
structure QueueConsumeResult (P M S : Type) where
  successes : List (QueueConsumeSuccess P M S)
  remaining : List (OfflineCreateQueueEntry P M)
  error : Option JsError

/-- The impure context of one call into the library: Date.now(), the
random suffix Math.random produces, and new Date().toISOString(), all
taken at the instant of the call. -/
structure JsEnv where
  nowMs : Int
  randSuffix : String
  nowIso : String

/-- generateClientId: epoch milliseconds, a dash, and a random base36
suffix. -/
def generateClientId (env : JsEnv) : String :=
  toString env.nowMs ++ "-" ++ env.randSuffix

/-- Result of appendCreateQueueEntry: the new entry and the new queue. -/
structure AppendCreateQueueResult (P M : Type) where
  entry : OfflineCreateQueueEntry P M
  queue : List (OfflineCreateQueueEntry P M)

/-- appendCreateQueueEntry: appends one entry built from the payload, the
given (or freshly generated) client id and the optional meta builder. -/
def appendCreateQueueEntry {P M : Type} (env : JsEnv)
    (queue : List (OfflineCreateQueueEntry P M)) (payload : P)
    (clientId? : Option String) (buildMeta? : Option (P → String → M)) :
    AppendCreateQueueResult P M :=
  let clientId := clientId?.getD (generateClientId env)
  let entry : OfflineCreateQueueEntry P M :=
    { client_id := clientId
      payload := payload
      meta := buildMeta?.map (fun buildMeta => buildMeta payload clientId) }
  { entry := entry, queue := queue ++ [entry] }

/-- loadStoredList: read the string at the key, parse it, and keep the
array elements accepted by the validator; any failure degrades to the
empty list. -/
def loadStoredList (storage : KeyValueStorage) (key : String)
    (isValid : JsValue → Bool) : List JsValue :=
  match storage key with
  | .absent => []
  | .malformed => []
  | .jsonOf parsed =>
    match parsed with
    | .arr elems => elems.filter isValid
    | _ => []

/-- saveStoredList: serialize the values and overwrite the key. -/
def saveStoredList (storage : KeyValueStorage) (key : String)
    (values : List JsValue) : KeyValueStorage :=
  storageSet storage key (.arr values)

/-- consumeCreateQueue: drain the queue front to back, awaiting each
remote create in turn; on the first rejection stop and return the
successes so far, the failed entry with everything after it, and the
captured error.  The asynchronous remote call is embedded as an
Except-valued function. -/
def consumeCreateQueue {P M S : Type}
    (queue : List (OfflineCreateQueueEntry P M))
    (createRemote : P → Except RejectionValue S) : QueueConsumeResult P M S :=
  match queue with
  | [] => { successes := [], remaining := [], error := none }
  | entry :: rest =>
    match createRemote entry.payload with
    | .ok synced =>
      let result := consumeCreateQueue rest createRemote
      { successes := { entry := entry, synced := synced } :: result.successes
        remaining := result.remaining
        error := result.error }
    | .error rejected =>
      { successes := []
        remaining := entry :: rest
        error := some (normalizeQueueError rejected) }

/-- The sequence of payloads consumeCreateQueue passes to createRemote,
read off the same recursion (the observational call trace of the drain). -/
def consumeCreateQueueCalls {P M S : Type}
    (queue : List (OfflineCreateQueueEntry P M))
    (createRemote : P → Except RejectionValue S) : List P :=
  match queue with
  | [] => []
  | entry :: rest =>
    match createRemote entry.payload with
    | .ok _ => entry.payload :: consumeCreateQueueCalls rest createRemote
    | .error _ => [entry.payload]

/- ## Behaviour of consumeCreateQueue -/

theorem consumeCreateQueue_stop {P M S : Type}
    (createRemote : P → Except RejectionValue S) :
    ∀ (pre post : List (OfflineCreateQueueEntry P M))
      (failEntry : OfflineCreateQueueEntry P M) (v : RejectionValue),
      (∀ e ∈ pre, ∃ s, createRemote e.payload = .ok s) →
      createRemote failEntry.payload = .error v →
      ((consumeCreateQueue (pre ++ failEntry :: post) createRemote).successes.map
          (fun s => s.entry) = pre
        ∧ (consumeCreateQueue (pre ++ failEntry :: post) createRemote).remaining
            = failEntry :: post
        ∧ (consumeCreateQueue (pre ++ failEntry :: post) createRemote).error
            = some (normalizeQueueError v)
        ∧ consumeCreateQueueCalls (pre ++ failEntry :: post) createRemote
            = pre.map (fun e => e.payload) ++ [failEntry.payload]) := by
  intro pre
  induction pre with
  | nil =>
    intro post failEntry v _ hfail
    simp [consumeCreateQueue, consumeCreateQueueCalls, hfail]
  | cons e rest ih =>
    intro post failEntry v hok hfail
    obtain ⟨s, hs⟩ := hok e (by simp)
    have ihr := ih post failEntry v (fun x hx => hok x (by simp [hx])) hfail
    simp only [List.cons_append, consumeCreateQueue, consumeCreateQueueCalls, hs]
    simp [ihr.1, ihr.2.1, ihr.2.2.1, ihr.2.2.2]

theorem consumeCreateQueue_allOk {P M S : Type}
    (createRemote : P → Except RejectionValue S) :
    ∀ (queue : List (OfflineCreateQueueEntry P M)),
      (∀ e ∈ queue, ∃ s, createRemote e.payload = .ok s) →
      ((consumeCreateQueue queue createRemote).remaining = []
        ∧ (consumeCreateQueue queue createRemote).error = none
        ∧ (consumeCreateQueue queue createRemote).successes.map (fun s => s.entry)
            = queue) := by
  intro queue
  induction queue with
  | nil => intro _; simp [consumeCreateQueue]
  | cons e rest ih =>
    intro hok
    obtain ⟨s, hs⟩ := hok e (by simp)
    have ihr := ih (fun x hx => hok x (by simp [hx]))
    simp only [consumeCreateQueue, hs]
    simp [ihr.1, ihr.2.1, ihr.2.2]

/-- C1: when createRemote fails on the entry at index i after succeeding
on every earlier entry, consumeCreateQueue returns exactly the earlier
entries as successes in order, the failed entry and everything after it
as the untouched remaining suffix, and createRemote is invoked exactly on
the payloads of the entries up to and including the failing one, so never
on a later payload.  The failure position is given by the decomposition
queue = pre ++ failEntry :: post. -/
theorem consumeCreateQueue_stops_at_first_failure {P M S : Type}
    (createRemote : P → Except RejectionValue S)
    (pre post : List (OfflineCreateQueueEntry P M))
    (failEntry : OfflineCreateQueueEntry P M) (v : RejectionValue)
    (hok : ∀ e ∈ pre, ∃ s, createRemote e.payload = .ok s)
    (hfail : createRemote failEntry.payload = .error v) :
    (consumeCreateQueue (pre ++ failEntry :: post) createRemote).successes.map
        (fun s => s.entry) = pre
      ∧ (consumeCreateQueue (pre ++ failEntry :: post) createRemote).remaining
          = failEntry :: post
      ∧ consumeCreateQueueCalls (pre ++ failEntry :: post) createRemote
          = pre.map (fun e => e.payload) ++ [failEntry.payload] := by
  have h := consumeCreateQueue_stop createRemote pre post failEntry v hok hfail
  exact ⟨h.1, h.2.1, h.2.2.2⟩

/-- Queue used by the witnesses for the drain theorems. -/
def witnessQueue : List (OfflineCreateQueueEntry Nat Unit) :=
  [{ client_id := "c1", payload := 1, meta := none },
   { client_id := "c2", payload := 2, meta := none },
   { client_id := "c3", payload := 3, meta := none }]

/-- Remote create stub failing exactly on payload 2 (as in the source
test "failure keeps failed and remaining entries"). -/
def witnessRemoteFailOn2 : Nat → Except RejectionValue String :=
  fun n =>
    if n = 2 then .error (.errorInstance { message := "boom" })
    else .ok ("s" ++ toString n)

/-- Witness for C1 at the concrete three-entry queue failing on the
second entry. -/
theorem consumeCreateQueue_stops_at_first_failure_witness :
    (consumeCreateQueue witnessQueue witnessRemoteFailOn2).successes.map
        (fun s => s.entry) = [{ client_id := "c1", payload := 1, meta := none }]
      ∧ (consumeCreateQueue witnessQueue witnessRemoteFailOn2).remaining
          = [{ client_id := "c2", payload := 2, meta := none },
             { client_id := "c3", payload := 3, meta := none }]
      ∧ consumeCreateQueueCalls witnessQueue witnessRemoteFailOn2 = [1, 2] :=
  consumeCreateQueue_stops_at_first_failure witnessRemoteFailOn2
    [{ client_id := "c1", payload := 1, meta := none }]
    [{ client_id := "c3", payload := 3, meta := none }]
    { client_id := "c2", payload := 2, meta := none }
    (.errorInstance { message := "boom" })
    (by
      intro e he
      simp only [List.mem_singleton] at he
      exact ⟨"s1", by rw [he]; rfl⟩)
    rfl

/-- C2: when every remote create succeeds, the drain empties the queue,
reports no error, and the successes list the input entries in order. -/
theorem consumeCreateQueue_drains_on_full_success {P M S : Type}
    (createRemote : P → Except RejectionValue S)
    (queue : List (OfflineCreateQueueEntry P M))
    (hok : ∀ e ∈ queue, ∃ s, createRemote e.payload = .ok s) :
    (consumeCreateQueue queue createRemote).remaining = []
      ∧ (consumeCreateQueue queue createRemote).error = none
      ∧ (consumeCreateQueue queue createRemote).successes.map (fun s => s.entry)
          = queue :=
  consumeCreateQueue_allOk createRemote queue hok

/-- Remote create stub succeeding on every payload. -/
def witnessRemoteAllOk : Nat → Except RejectionValue String :=
  fun n => .ok ("s" ++ toString n)

/-- Witness for C2 at the concrete three-entry queue. -/
theorem consumeCreateQueue_drains_on_full_success_witness :
    (consumeCreateQueue witnessQueue witnessRemoteAllOk).remaining = []
      ∧ (consumeCreateQueue witnessQueue witnessRemoteAllOk).error = none
      ∧ (consumeCreateQueue witnessQueue witnessRemoteAllOk).successes.map
          (fun s => s.entry) = witnessQueue :=
  consumeCreateQueue_drains_on_full_success witnessRemoteAllOk witnessQueue
    (fun e _ => ⟨"s" ++ toString e.payload, rfl⟩)

/-- C9 counterexample: rejecting with a value that is not an Error
instance does not propagate that value; the returned error is the fresh
Error with message "queue sync failed". -/
theorem consumeCreateQueue_error_not_propagated_unchanged :
    (consumeCreateQueue
        [({ client_id := "c1", payload := 1, meta := none } :
            OfflineCreateQueueEntry Nat Unit)]
        (fun _ => (.error (.nonErrorValue "boom") :
          Except RejectionValue String))).error
      = some { message := "queue sync failed" }
      ∧ RejectionValue.errorInstance { message := "queue sync failed" }
          ≠ RejectionValue.nonErrorValue "boom" :=
  ⟨rfl, by decide⟩

/-- C9 amended: the error consumeCreateQueue returns is the rejection
value passed through the instanceof normalization of the source: an Error
instance is propagated unchanged, any other rejection value is replaced
by a fresh Error with message "queue sync failed". -/
theorem consumeCreateQueue_error_propagation {P M S : Type}
    (createRemote : P → Except RejectionValue S)
    (pre post : List (OfflineCreateQueueEntry P M))
    (failEntry : OfflineCreateQueueEntry P M) (v : RejectionValue)
    (hok : ∀ e ∈ pre, ∃ s, createRemote e.payload = .ok s)
    (hfail : createRemote failEntry.payload = .error v) :
    (consumeCreateQueue (pre ++ failEntry :: post) createRemote).error
        = some (normalizeQueueError v)
      ∧ (∀ e : JsError, v = .errorInstance e →
          (consumeCreateQueue (pre ++ failEntry :: post) createRemote).error
            = some e) := by
  have h := consumeCreateQueue_stop createRemote pre post failEntry v hok hfail
  refine ⟨h.2.2.1, ?_⟩
  intro e he
  rw [h.2.2.1, he]
  rfl

/-- Witness for the amended C9: an Error-instance rejection comes back
unchanged. -/
theorem consumeCreateQueue_error_propagation_witness :
    (consumeCreateQueue witnessQueue witnessRemoteFailOn2).error
        = some (normalizeQueueError (.errorInstance { message := "boom" }))
      ∧ (∀ e : JsError,
          RejectionValue.errorInstance { message := "boom" }
              = .errorInstance e →
          (consumeCreateQueue witnessQueue witnessRemoteFailOn2).error
            = some e) :=
  consumeCreateQueue_error_propagation witnessRemoteFailOn2
    [{ client_id := "c1", payload := 1, meta := none }]
    [{ client_id := "c3", payload := 3, meta := none }]
    { client_id := "c2", payload := 2, meta := none }
    (.errorInstance { message := "boom" })
    (by
      intro e he
      simp only [List.mem_singleton] at he
      exact ⟨"s1", by rw [he]; rfl⟩)
    rfl

/- ## Memo domain (memoOfflineSync.ts) -/

/-- MemoSyncStatus: "synced" | "pending". -/
inductive MemoSyncStatus where
  | synced : MemoSyncStatus
  | pending : MemoSyncStatus
  deriving DecidableEq, Repr

/-- MemoLog.  The optional transient sync_status is Option-valued. -/
structure MemoLog where
  id : String
  user_id : String
  title : String
  body_md : String
  log_date : String
  related_session_id : Option String
  tags : List String
  created_at : String
  updated_at : String
  sync_status : Option MemoSyncStatus
  deriving DecidableEq, Repr

/-- MemoCreatePayload (= MemoDraftFields). -/
structure MemoCreatePayload where
  title : String
  body_md : String
  log_date : String
  related_session_id : Option String
  tags : List String
  deriving DecidableEq, Repr

/-- PendingMemoMeta. -/
structure PendingMemoMeta where
  queued_at : String
  deriving DecidableEq, Repr

/-- PendingMemoQueueItem: a queue entry whose meta is always present. -/
structure PendingMemoQueueItem where
  client_id : String
  payload : MemoCreatePayload
  meta : PendingMemoMeta
  deriving DecidableEq, Repr

/-- Upcast into the generic entry shape the queue library works on. -/
def PendingMemoQueueItem.toEntry (item : PendingMemoQueueItem) :
    OfflineCreateQueueEntry MemoCreatePayload PendingMemoMeta :=
  { client_id := item.client_id, payload := item.payload, meta := some item.meta }

def MEMO_CACHE_STORAGE_KEY : String := "mylife.memo-cache.v1"

def MEMO_PENDING_QUEUE_STORAGE_KEY : String := "mylife.memo-pending-create.v1"

/-- buildPendingPreviewId: "local:" followed by the client id. -/
def buildPendingPreviewId (clientId : String) : String :=
  "local:" ++ clientId

/- ### new Date(s).getTime() for the ISO-8601 timestamps the app stores -/

/-- Numeric value of a decimal digit character. -/
def digitVal (c : Char) : Option Nat :=
  if c.isDigit then some (c.toNat - 48) else none

/-- Two decimal digits. -/
def twoDigits (a b : Char) : Option Nat := do
  let x ← digitVal a
  let y ← digitVal b
  pure (10 * x + y)

/-- Four decimal digits. -/
def fourDigits (a b c d : Char) : Option Nat := do
  let x ← twoDigits a b
  let y ← twoDigits c d
  pure (100 * x + y)

/-- Days from the Unix epoch to the given civil date (proleptic Gregorian
calendar, the standard days-from-civil algorithm). -/
def daysFromCivil (y m d : Int) : Int :=
  let y2 := if m ≤ 2 then y - 1 else y
  let era := (if 0 ≤ y2 then y2 else y2 - 399) / 400
  let yoe := y2 - era * 400
  let mp := (m + 9) % 12
  let doy := (153 * mp + 2) / 5 + d - 1
  let doe := yoe * 365 + yoe / 4 - yoe / 100 + doy
  era * 146097 + doe - 719468

/-- Epoch milliseconds of a UTC date-time. -/
def epochMillisOfParts (y m d hh mi ss ms : Int) : Int :=
  ((daysFromCivil y m d * 24 + hh) * 3600 + mi * 60 + ss) * 1000 + ms

/-- Parser for the ISO-8601 UTC timestamp grammar this app produces:
"YYYY-MM-DD", "YYYY-MM-DDTHH:MM:SSZ" and "YYYY-MM-DDTHH:MM:SS.mmmZ". -/
def parseIsoChars : List Char → Option Int
  | y1 :: y2 :: y3 :: y4 :: '-' :: m1 :: m2 :: '-' :: d1 :: d2 :: rest => do
    let y ← fourDigits y1 y2 y3 y4
    let m ← twoDigits m1 m2
    let d ← twoDigits d1 d2
    match rest with
    | [] => pure (epochMillisOfParts y m d 0 0 0 0)
    | 'T' :: h1 :: h2 :: ':' :: mi1 :: mi2 :: ':' :: s1 :: s2 :: rest2 => do
      let hh ← twoDigits h1 h2
      let mi ← twoDigits mi1 mi2
      let ss ← twoDigits s1 s2
      match rest2 with
      | ['Z'] => pure (epochMillisOfParts y m d hh mi ss 0)
      | '.' :: f1 :: f2 :: f3 :: ['Z'] => do
        let a ← digitVal f1
        let b ← digitVal f2
        let c ← digitVal f3
        pure (epochMillisOfParts y m d hh mi ss (100 * a + 10 * b + c))
      | _ => none
    | _ => none
  | _ => none

/-- Model of new Date(s).getTime() restricted to the ISO-8601 UTC
timestamps this application stores; strings outside that grammar are
outside the modelled domain and map to 0. -/
def jsDateGetTime (s : String) : Int :=
  (parseIsoChars s.data).getD 0

/-- The ordering the sort comparator
(a, b) => new Date(b.created_at).getTime() - new Date(a.created_at).getTime()
induces: a may come before b when the timestamp of a is at least that of b. -/
def memoDescRel (a b : MemoLog) : Prop :=
  jsDateGetTime b.created_at ≤ jsDateGetTime a.created_at

instance : DecidableRel memoDescRel :=
  fun _ _ => inferInstanceAs (Decidable (_ ≤ _))

instance : IsTotal MemoLog memoDescRel :=
  ⟨fun a b => le_total (jsDateGetTime b.created_at) (jsDateGetTime a.created_at)⟩

instance : IsTrans MemoLog memoDescRel :=
  ⟨fun _ _ _ hab hbc => le_trans hbc hab⟩

/-- sortMemosByCreatedAtDesc: a stable sort (Array.prototype.sort) of a
copy of the array under the descending created_at comparator. -/
def sortMemosByCreatedAtDesc (memos : List MemoLog) : List MemoLog :=
  List.insertionSort memoDescRel memos

/-- markSyncedMemo: spread with sync_status forced to "synced". -/
def markSyncedMemo (memo : MemoLog) : MemoLog :=
  { memo with sync_status := some .synced }

/-- buildPendingPreviewFromQueue: the deterministic placeholder derived
from a queue item. -/
def buildPendingPreviewFromQueue (item : PendingMemoQueueItem) : MemoLog :=
  let queuedAt := item.meta.queued_at
  { id := buildPendingPreviewId item.client_id
    user_id := "local-pending"
    title := item.payload.title
    body_md := item.payload.body_md
    log_date := item.payload.log_date
    related_session_id := item.payload.related_session_id
    tags := item.payload.tags
    created_at := queuedAt
    updated_at := queuedAt
    sync_status := some .pending }

/-- isMemoLog: the runtime shape guard on JSON-parsed values. -/
def isMemoLogJs (value : JsValue) : Bool :=
  jsTruthy value && jsTypeofObject value
    && isStrField value "id" && isStrField value "body_md"
    && isStrField value "created_at" && isArrField value "tags"

/-- isPendingMemoQueueItem: the runtime shape guard for the current queue
entry shape. -/
def isPendingMemoQueueItemJs (value : JsValue) : Bool :=
  jsTruthy value && jsTypeofObject value
    && isStrField value "client_id"
    && (match jsGetField value "payload" with
        | some p => jsTruthy p && isStrField p "body_md"
        | none => false)
    && (match jsGetField value "meta" with
        | some m => jsTruthy m && isStrField m "queued_at"
        | none => false)

/-- The legacy-shape test inlined in normalizePendingMemoQueueItem:
a string client_id and a truthy payload whose body_md is a string. -/
def isLegacyPendingShapeJs (value : JsValue) : Bool :=
  jsTruthy value && jsTypeofObject value
    && isStrField value "client_id"
    && (match jsGetField value "payload" with
        | some p => jsTruthy p && isStrField p "body_md"
        | none => false)

/-- The string at a field, or a default (reading an untyped JSON object
into the typed record). -/
def jsStringOr (v : Option JsValue) (dflt : String) : String :=
  match v with
  | some (.str s) => s
  | _ => dflt

/-- Read a tags array: the string elements of the stored array. -/
def decodeTags (v : Option JsValue) : List String :=
  match v with
  | some (.arr elems) =>
    elems.filterMap (fun e => match e with | .str s => some s | _ => none)
  | _ => []

/-- Read an optional sync_status field. -/
def decodeSyncStatus (v : Option JsValue) : Option MemoSyncStatus :=
  match v with
  | some (.str s) =>
    if s = "synced" then some .synced
    else if s = "pending" then some .pending
    else none
  | _ => none

/-- Read a nullable string field. -/
def decodeNullableString (v : Option JsValue) : Option String :=
  match v with
  | some (.str s) => some s
  | _ => none

/-- View a JSON value the isMemoLog guard accepted as a MemoLog (the
source uses the value as-is through the type guard; fields the guard does
not constrain read with defaults). -/
def decodeMemoLog (value : JsValue) : MemoLog :=
  { id := jsStringOr (jsGetField value "id") ""
    user_id := jsStringOr (jsGetField value "user_id") ""
    title := jsStringOr (jsGetField value "title") ""
    body_md := jsStringOr (jsGetField value "body_md") ""
    log_date := jsStringOr (jsGetField value "log_date") ""
    related_session_id := decodeNullableString (jsGetField value "related_session_id")
    tags := decodeTags (jsGetField value "tags")
    created_at := jsStringOr (jsGetField value "created_at") ""
    updated_at := jsStringOr (jsGetField value "updated_at") ""
    sync_status := decodeSyncStatus (jsGetField value "sync_status") }

/-- View a JSON value as a MemoCreatePayload (same reading discipline). -/
def decodeMemoPayload (value : JsValue) : MemoCreatePayload :=
  { title := jsStringOr (jsGetField value "title") ""
    body_md := jsStringOr (jsGetField value "body_md") ""
    log_date := jsStringOr (jsGetField value "log_date") ""
    related_session_id := decodeNullableString (jsGetField value "related_session_id")
    tags := decodeTags (jsGetField value "tags") }

/-- View a JSON value the current-shape guard accepted as a queue item. -/
def decodePendingItemCurrent (value : JsValue) : PendingMemoQueueItem :=
  { client_id := jsStringOr (jsGetField value "client_id") ""
    payload := decodeMemoPayload ((jsGetField value "payload").getD .null)
    meta := { queued_at :=
      jsStringOr ((jsGetField value "meta").bind (fun m => jsGetField m "queued_at")) "" } }

/-- JSON.stringify image of a MemoCreatePayload. -/
def encodeMemoPayload (p : MemoCreatePayload) : JsValue :=
  .obj [("title", .str p.title), ("body_md", .str p.body_md),
        ("log_date", .str p.log_date),
        ("related_session_id",
          match p.related_session_id with | some s => .str s | none => .null),
        ("tags", .arr (p.tags.map JsValue.str))]

/-- JSON.stringify image of a PendingMemoQueueItem. -/
def encodePendingItem (item : PendingMemoQueueItem) : JsValue :=
  .obj [("client_id", .str item.client_id),
        ("payload", encodeMemoPayload item.payload),
        ("meta", .obj [("queued_at", .str item.meta.queued_at)])]

/-- JSON.stringify image of a MemoLog written to the cache: the spread
sets sync_status to undefined, which JSON.stringify omits. -/
def encodeMemoLogForCache (memo : MemoLog) : JsValue :=
  .obj [("id", .str memo.id), ("user_id", .str memo.user_id),
        ("title", .str memo.title), ("body_md", .str memo.body_md),
        ("log_date", .str memo.log_date),
        ("related_session_id",
          match memo.related_session_id with | some s => .str s | none => .null),
        ("tags", .arr (memo.tags.map JsValue.str)),
        ("created_at", .str memo.created_at),
        ("updated_at", .str memo.updated_at)]

/-- ensurePendingMeta: complete a generic entry to a queue item,
synthesizing queued_at at "now" when meta is missing. -/
def ensurePendingMeta (env : JsEnv)
    (item : OfflineCreateQueueEntry MemoCreatePayload PendingMemoMeta) :
    PendingMemoQueueItem :=
  { client_id := item.client_id
    payload := item.payload
    meta := item.meta.getD { queued_at := env.nowIso } }

/-- normalizePendingMemoQueueItem: accept the current shape as-is,
upgrade the legacy preview-embedded shape (taking queued_at from the
preview created_at, or synthesizing "now"), drop everything else. -/
def normalizePendingMemoQueueItem (env : JsEnv) (value : JsValue) :
    Option PendingMemoQueueItem :=
  if !(jsTruthy value && jsTypeofObject value) then none
  else if isPendingMemoQueueItemJs value then some (decodePendingItemCurrent value)
  else if isLegacyPendingShapeJs value then
    let legacyCreatedAt :=
      (jsGetField value "preview").bind (fun pr => jsGetField pr "created_at")
    some { client_id := jsStringOr (jsGetField value "client_id") ""
           payload := decodeMemoPayload ((jsGetField value "payload").getD .null)
           meta := { queued_at :=
             match legacyCreatedAt with
             | some (.str c) => c
             | _ => env.nowIso } }
  else none

/-- loadMemoCache: read the cache list, keep guard-passing elements,
normalize to synced, sort by created_at descending. -/
def loadMemoCache (storage : KeyValueStorage) : List MemoLog :=
  sortMemosByCreatedAtDesc
    (((loadStoredList storage MEMO_CACHE_STORAGE_KEY isMemoLogJs).map
        decodeMemoLog).map markSyncedMemo)

/-- loadPendingMemoQueue: read the raw list (trivial validator) and
normalize each element, dropping the ones normalization rejects. -/
def loadPendingMemoQueue (env : JsEnv) (storage : KeyValueStorage) :
    List PendingMemoQueueItem :=
  (loadStoredList storage MEMO_PENDING_QUEUE_STORAGE_KEY (fun _ => true)).filterMap
    (normalizePendingMemoQueueItem env)

/-- savePendingMemoQueue. -/
def savePendingMemoQueue (storage : KeyValueStorage)
    (queue : List PendingMemoQueueItem) : KeyValueStorage :=
  saveStoredList storage MEMO_PENDING_QUEUE_STORAGE_KEY (queue.map encodePendingItem)

/-- saveMemoCache: persist only the records that are not pending, each
with sync_status stripped. -/
def saveMemoCache (storage : KeyValueStorage) (memos : List MemoLog) :
    KeyValueStorage :=
  saveStoredList storage MEMO_CACHE_STORAGE_KEY
    ((memos.filter (fun memo => decide (memo.sync_status ≠ some .pending))).map
      encodeMemoLogForCache)

/-- Insertion-ordered JavaScript Map, as a key-value list: has. -/
def jsMapHas (entries : List (String × MemoLog)) (key : String) : Bool :=
  entries.any (fun p => decide (p.1 = key))

/-- Insertion-ordered JavaScript Map: set replaces in place or appends. -/
def jsMapSet (entries : List (String × MemoLog)) (key : String)
    (value : MemoLog) : List (String × MemoLog) :=
  if jsMapHas entries key then
    entries.map (fun p => if p.1 = key then (key, value) else p)
  else entries ++ [(key, value)]

/-- mergeMemoList: server records first (marked synced), then each
pending preview only when its id is not yet present, sorted by
created_at descending. -/
def mergeMemoList (serverMemos pendingPreviews : List MemoLog) : List MemoLog :=
  let merged := serverMemos.foldl
    (fun acc memo => jsMapSet acc memo.id (markSyncedMemo memo)) []
  let merged2 := pendingPreviews.foldl
    (fun acc memo =>
      if jsMapHas acc memo.id then acc
      else jsMapSet acc memo.id { memo with sync_status := some .pending })
    merged
  sortMemosByCreatedAtDesc (merged2.map (fun p => p.2))

/-- Result of enqueueMemoCreate: the placeholder preview and the new
queue. -/
structure EnqueueMemoCreateResult where
  preview : MemoLog
  queue : List PendingMemoQueueItem

/-- enqueueMemoCreate: reload the persisted queue, append one new entry
with a fresh client id and queued_at "now", persist the new queue, and
return the placeholder preview with the new queue.  The updated store is
returned alongside; the function has no access to the remote create. -/
def enqueueMemoCreate (env : JsEnv) (storage : KeyValueStorage)
    (payload : MemoCreatePayload) :
    EnqueueMemoCreateResult × KeyValueStorage :=
  let queue := loadPendingMemoQueue env storage
  let appended := appendCreateQueueEntry env (queue.map PendingMemoQueueItem.toEntry)
    payload (some (generateClientId env))
    (some (fun _ _ => { queued_at := env.nowIso }))
  let nextQueue := appended.queue.map (ensurePendingMeta env)
  let storage2 := savePendingMemoQueue storage nextQueue
  let queuedEntry := ensurePendingMeta env appended.entry
  ({ preview := buildPendingPreviewFromQueue queuedEntry, queue := nextQueue },
    storage2)

/-- MemoSyncSuccess: placeholder id and the synced server record. -/
structure MemoSyncSuccess where
  previewId : String
  syncedMemo : MemoLog
  deriving DecidableEq, Repr

/-- applyMemoSyncSuccesses: drop display entries whose id is a replaced
placeholder id, insert the synced records, and re-sort; with no successes
the list is returned untouched. -/
def applyMemoSyncSuccesses (current : List MemoLog)
    (successes : List MemoSyncSuccess) : List MemoLog :=
  if successes.length = 0 then current
  else
    let byPreviewId := successes.map (fun r => (r.previewId, r.syncedMemo))
    let syncedAdds := successes.map (fun r => r.syncedMemo)
    let kept := current.filter
      (fun memo => !(byPreviewId.any (fun p => decide (p.1 = memo.id))))
    sortMemosByCreatedAtDesc (syncedAdds ++ kept)

/- ## Shared concrete inputs for witnesses and counterexamples -/

/-- A memo record builder fixing the fields the theorems do not vary. -/
def wMemo (idv createdAt : String) (status : Option MemoSyncStatus) : MemoLog :=
  { id := idv, user_id := "u1", title := "memo", body_md := "body"
    log_date := "2026-03-01", related_session_id := none, tags := []
    created_at := createdAt, updated_at := createdAt, sync_status := status }

/-- A concrete impure context. -/
def wEnv : JsEnv :=
  { nowMs := 1700000000000, randSuffix := "abc123"
    nowIso := "2026-03-01T05:00:00.000Z" }

/- ## C10: applyMemoSyncSuccesses with no successes -/

/-- C10: with an empty successes list applyMemoSyncSuccesses returns the
input untouched; in particular a display list that is not sorted by
created_at descending comes back as-is, unfiltered and unsorted. -/
theorem applyMemoSyncSuccesses_empty_identity :
    (∀ current : List MemoLog, applyMemoSyncSuccesses current [] = current)
    ∧ ¬ List.Sorted memoDescRel
        [wMemo "a" "2026-03-01T01:00:00.000Z" (some .synced),
         wMemo "b" "2026-03-01T02:00:00.000Z" (some .synced)]
    ∧ applyMemoSyncSuccesses
        [wMemo "a" "2026-03-01T01:00:00.000Z" (some .synced),
         wMemo "b" "2026-03-01T02:00:00.000Z" (some .synced)] []
      = [wMemo "a" "2026-03-01T01:00:00.000Z" (some .synced),
         wMemo "b" "2026-03-01T02:00:00.000Z" (some .synced)] := by
  refine ⟨fun current => rfl, ?_, rfl⟩
  intro h
  have hrel := List.rel_of_sorted_cons h
    (wMemo "b" "2026-03-01T02:00:00.000Z" (some .synced)) (by simp)
  revert hrel
  decide

/- ## C8: total behaviour of loadStoredList -/

/-- C8: loadStoredList is total: an absent key, a string JSON.parse
rejects, or a parsed value that is not an array all give the empty list;
on a stored array it returns exactly the elements the validator accepts,
in stored order (a sublist with the characteristic membership and count). -/
theorem loadStoredList_total_behavior (storage : KeyValueStorage) (key : String)
    (isValid : JsValue → Bool) :
    (storage key = .absent → loadStoredList storage key isValid = [])
    ∧ (storage key = .malformed → loadStoredList storage key isValid = [])
    ∧ (∀ v : JsValue, storage key = .jsonOf v →
        (∀ elems : List JsValue, v ≠ .arr elems) →
        loadStoredList storage key isValid = [])
    ∧ (∀ elems : List JsValue, storage key = .jsonOf (.arr elems) →
        (loadStoredList storage key isValid).Sublist elems
        ∧ (∀ a : JsValue,
            a ∈ loadStoredList storage key isValid ↔ a ∈ elems ∧ isValid a = true)
        ∧ (loadStoredList storage key isValid).length = elems.countP isValid) := by
  refine ⟨?_, ?_, ?_, ?_⟩
  · intro h; simp [loadStoredList, h]
  · intro h; simp [loadStoredList, h]
  · intro v h hne
    cases v with
    | arr elems => exact absurd rfl (hne elems)
    | null => simp [loadStoredList, h]
    | bool b => simp [loadStoredList, h]
    | num n => simp [loadStoredList, h]
    | str s => simp [loadStoredList, h]
    | obj fields => simp [loadStoredList, h]
  · intro elems h
    have hload : loadStoredList storage key isValid = elems.filter isValid := by
      simp [loadStoredList, h]
    rw [hload]
    refine ⟨List.filter_sublist elems, ?_, ?_⟩
    · intro a; simp [List.mem_filter]
    · rw [List.countP_eq_length_filter]

/-- Stored array used by the C8 witness (a valid element, a rejected
element, a valid element). -/
def wStoredItems : List JsValue := [.num 1, .str "x", .num 2]

/-- Validator used by the C8 witness: numbers only. -/
def wIsNum : JsValue → Bool :=
  fun v => match v with | .num _ => true | _ => false

/-- Witness for C8 at a store holding a mixed array under the key. -/
theorem loadStoredList_total_behavior_witness :
    (loadStoredList (mkStore "items" (.arr wStoredItems)) "items" wIsNum).Sublist
        wStoredItems
      ∧ (∀ a : JsValue,
          a ∈ loadStoredList (mkStore "items" (.arr wStoredItems)) "items" wIsNum
            ↔ a ∈ wStoredItems ∧ wIsNum a = true)
      ∧ (loadStoredList (mkStore "items" (.arr wStoredItems)) "items" wIsNum).length
          = wStoredItems.countP wIsNum :=
  (loadStoredList_total_behavior (mkStore "items" (.arr wStoredItems)) "items"
      wIsNum).2.2.2 wStoredItems rfl

/- ## C3: enqueueMemoCreate -/

/-- The queue entry enqueueMemoCreate appends: fresh client id, the given
payload, queued_at taken at "now". -/
def enqueuedItem (env : JsEnv) (payload : MemoCreatePayload) : PendingMemoQueueItem :=
  { client_id := generateClientId env, payload := payload
    meta := { queued_at := env.nowIso } }

theorem ensurePendingMeta_toEntry (env : JsEnv) (item : PendingMemoQueueItem) :
    ensurePendingMeta env item.toEntry = item := rfl

theorem map_ensurePendingMeta_toEntry (env : JsEnv)
    (queue : List PendingMemoQueueItem) :
    (queue.map PendingMemoQueueItem.toEntry).map (ensurePendingMeta env) = queue := by
  induction queue with
  | nil => rfl
  | cons item rest ih => simp [ensurePendingMeta_toEntry, ih]

/-- C3: enqueueMemoCreate returns the previously loaded queue extended
with exactly one new entry at the end, writes precisely that queue to the
pending-queue storage key, and returns the placeholder preview derived
from the new entry, whose id is "local:" plus the generated client id and
whose sync_status is "pending".  The function takes no remote-create
capability at all, so no network call can be involved: the write to the
store is the only effect. -/
theorem enqueueMemoCreate_persists_queue_and_returns_preview (env : JsEnv)
    (storage : KeyValueStorage) (payload : MemoCreatePayload) :
    (enqueueMemoCreate env storage payload).1.queue
        = loadPendingMemoQueue env storage ++ [enqueuedItem env payload]
      ∧ (enqueueMemoCreate env storage payload).2 MEMO_PENDING_QUEUE_STORAGE_KEY
          = .jsonOf (.arr
              ((loadPendingMemoQueue env storage ++ [enqueuedItem env payload]).map
                encodePendingItem))
      ∧ (enqueueMemoCreate env storage payload).1.preview
          = buildPendingPreviewFromQueue (enqueuedItem env payload)
      ∧ (enqueueMemoCreate env storage payload).1.preview.id
          = buildPendingPreviewId (generateClientId env)
      ∧ (enqueueMemoCreate env storage payload).1.preview.sync_status
          = some .pending := by
  have hqueue : (enqueueMemoCreate env storage payload).1.queue
      = loadPendingMemoQueue env storage ++ [enqueuedItem env payload] := by
    show ((loadPendingMemoQueue env storage).map PendingMemoQueueItem.toEntry
        ++ [({ client_id := generateClientId env, payload := payload
               meta := some { queued_at := env.nowIso } } :
              OfflineCreateQueueEntry MemoCreatePayload PendingMemoMeta)]).map
          (ensurePendingMeta env)
      = loadPendingMemoQueue env storage ++ [enqueuedItem env payload]
    rw [List.map_append, map_ensurePendingMeta_toEntry]
    rfl
  refine ⟨hqueue, ?_, rfl, rfl, rfl⟩
  show (savePendingMemoQueue storage ((enqueueMemoCreate env storage payload).1.queue))
      MEMO_PENDING_QUEUE_STORAGE_KEY = _
  rw [hqueue]
  simp [savePendingMemoQueue, saveStoredList, storageSet]

/- ## C6: applyMemoSyncSuccesses replaces the placeholder -/

/-- C6 counterexample: the claim fails as stated.  First input: an empty
display list and a synced record whose id is "local:x" itself — the
result keeps one entry with id "local:x", though the claim promises none
remain.  Second input: a display list already holding an entry with the
server id — applying a success for that id yields two entries with it,
though the claim promises exactly one. -/
theorem applyMemoSyncSuccesses_claim_counterexample :
    ((applyMemoSyncSuccesses []
        [{ previewId := "local:x"
           syncedMemo := wMemo "local:x" "2026-03-01T01:00:00.000Z" (some .synced) }]).countP
        (fun m => decide (m.id = "local:x")) = 1)
    ∧ ((applyMemoSyncSuccesses
        [wMemo "srv-1" "2026-03-01T01:00:00.000Z" (some .synced)]
        [{ previewId := "local:x"
           syncedMemo := wMemo "srv-1" "2026-03-01T02:00:00.000Z" (some .synced) }]).countP
        (fun m => decide (m.id = "srv-1")) = 2) := by
  constructor
  · rfl
  · rfl

/-- C6 amended: provided the synced record id is not the placeholder id
"local:x" and no entry of the current display list already carries that
id, applyMemoSyncSuccesses with the single success removes every entry
with id "local:x" and leaves exactly one entry with the record id. -/
theorem applyMemoSyncSuccesses_replaces_placeholder (current : List MemoLog)
    (R : MemoLog) (hne : R.id ≠ "local:x")
    (hfresh : ∀ m ∈ current, m.id ≠ R.id) :
    (∀ m ∈ applyMemoSyncSuccesses current [{ previewId := "local:x", syncedMemo := R }],
        m.id ≠ "local:x")
    ∧ (applyMemoSyncSuccesses current
          [{ previewId := "local:x", syncedMemo := R }]).countP
        (fun m => decide (m.id = R.id)) = 1 := by
  have hform : applyMemoSyncSuccesses current [{ previewId := "local:x", syncedMemo := R }]
      = sortMemosByCreatedAtDesc ([R] ++ current.filter
          (fun memo => !([("local:x", R)].any (fun p => decide (p.1 = memo.id))))) := rfl
  have hperm := List.perm_insertionSort memoDescRel ([R] ++ current.filter
    (fun memo => !([("local:x", R)].any (fun p => decide (p.1 = memo.id)))))
  constructor
  · intro m hm
    rw [hform] at hm
    have hm2 : m ∈ [R] ++ current.filter
        (fun memo => !([("local:x", R)].any (fun p => decide (p.1 = memo.id)))) :=
      hperm.mem_iff.mp hm
    rcases List.mem_append.mp hm2 with hR | hkept
    · rw [List.mem_singleton.mp hR]; exact hne
    · have hp := (List.mem_filter.mp hkept).2
      simp only [List.any_cons, List.any_nil, Bool.or_false, Bool.not_eq_true',
        decide_eq_false_iff_not] at hp
      exact fun hx => hp (hx ▸ rfl)
  · rw [hform]
    have hcount := hperm.countP_eq (fun m => decide (m.id = R.id))
    rw [show sortMemosByCreatedAtDesc ([R] ++ current.filter
        (fun memo => !([("local:x", R)].any (fun p => decide (p.1 = memo.id)))))
      = List.insertionSort memoDescRel ([R] ++ current.filter
        (fun memo => !([("local:x", R)].any (fun p => decide (p.1 = memo.id))))) from rfl]
    rw [hcount, List.countP_append]
    have h1 : List.countP (fun m => decide (m.id = R.id)) [R] = 1 := by simp
    have h0 : List.countP (fun m => decide (m.id = R.id))
        (current.filter
          (fun memo => !([("local:x", R)].any (fun p => decide (p.1 = memo.id))))) = 0 := by
      rw [List.countP_eq_zero]
      intro m hm
      have hmem := (List.mem_filter.mp hm).1
      simp only [decide_eq_true_eq]
      exact hfresh m hmem
    rw [h1, h0]

/-- Witness for the amended C6 on the inputs of the source test
"replaces preview with synced memo" (placeholder plus an unrelated server
record, replaced by a fresh server id). -/
theorem applyMemoSyncSuccesses_replaces_placeholder_witness :
    (wMemo "server-new" "2026-03-01T02:00:00.000Z" (some .synced)).id ≠ "local:x"
    ∧ ((∀ m ∈ applyMemoSyncSuccesses
          [wMemo "server-old" "2026-03-01T01:00:00.000Z" (some .synced)]
          [{ previewId := "local:x"
             syncedMemo := wMemo "server-new" "2026-03-01T02:00:00.000Z" (some .synced) }],
          m.id ≠ "local:x")
      ∧ (applyMemoSyncSuccesses
            [wMemo "server-old" "2026-03-01T01:00:00.000Z" (some .synced)]
            [{ previewId := "local:x"
               syncedMemo := wMemo "server-new" "2026-03-01T02:00:00.000Z" (some .synced) }]).countP
          (fun m => decide (m.id
            = (wMemo "server-new" "2026-03-01T02:00:00.000Z" (some .synced)).id)) = 1) :=
  ⟨by decide,
    applyMemoSyncSuccesses_replaces_placeholder
      [wMemo "server-old" "2026-03-01T01:00:00.000Z" (some .synced)]
      (wMemo "server-new" "2026-03-01T02:00:00.000Z" (some .synced))
      (by decide)
      (by
        intro m hm
        rw [List.mem_singleton.mp hm]
        decide)⟩

/- ## C7: legacy queue entries are upgraded, unknown shapes dropped -/

/-- C7: a stored queue element in the legacy preview-embedded shape (an
object that fails the current-shape guard but has a string client_id, a
truthy payload with string body_md, and a preview whose created_at is the
string c) is upgraded by normalizePendingMemoQueueItem to a current-shape
entry whose meta.queued_at is exactly c; loadPendingMemoQueue returns
that upgraded entry for a store holding such an element; and any element
matching neither the current nor the legacy shape is dropped silently. -/
theorem loadPendingMemoQueue_upgrades_legacy_entries (env : JsEnv)
    (v p pr : JsValue) (cid c : String)
    (hcur : isPendingMemoQueueItemJs v = false)
    (htr : jsTruthy v = true) (hty : jsTypeofObject v = true)
    (hcid : jsGetField v "client_id" = some (.str cid))
    (hpay : jsGetField v "payload" = some p)
    (hpt : jsTruthy p = true)
    (hpb : isStrField p "body_md" = true)
    (hprev : jsGetField v "preview" = some pr)
    (hc : jsGetField pr "created_at" = some (.str c)) :
    normalizePendingMemoQueueItem env v
        = some { client_id := cid, payload := decodeMemoPayload p
                 meta := { queued_at := c } }
      ∧ loadPendingMemoQueue env
          (mkStore MEMO_PENDING_QUEUE_STORAGE_KEY (.arr [v]))
          = [{ client_id := cid, payload := decodeMemoPayload p
               meta := { queued_at := c } }]
      ∧ (∀ w : JsValue, isPendingMemoQueueItemJs w = false →
          isLegacyPendingShapeJs w = false →
          normalizePendingMemoQueueItem env w = none) := by
  have hcidStr : isStrField v "client_id" = true := by
    simp [isStrField, hcid]
  have hleg : isLegacyPendingShapeJs v = true := by
    simp [isLegacyPendingShapeJs, htr, hty, hcidStr, hpay, hpt, hpb]
  have hmain : normalizePendingMemoQueueItem env v
      = some { client_id := cid, payload := decodeMemoPayload p
               meta := { queued_at := c } } := by
    simp [normalizePendingMemoQueueItem, htr, hty, hcur, hleg, hprev, hc,
      jsStringOr, hcid, hpay]
  refine ⟨hmain, ?_, ?_⟩
  · simp [loadPendingMemoQueue, loadStoredList, mkStore, List.filterMap_cons, hmain]
  · intro w hwcur hwleg
    simp [normalizePendingMemoQueueItem, hwcur, hwleg]

/-- The legacy payload object of the C7 witness. -/
def wLegacyPayload : JsValue :=
  .obj [("title", .str "t"), ("body_md", .str "b"),
        ("log_date", .str "2026-03-01"), ("related_session_id", .null),
        ("tags", .arr [])]

/-- The legacy embedded preview of the C7 witness. -/
def wLegacyPreview : JsValue :=
  .obj [("created_at", .str "2026-03-01T02:00:00.000Z")]

/-- A stored element in the legacy shape (as in the source test
"legacy queue(with preview) is normalized"). -/
def wLegacyValue : JsValue :=
  .obj [("client_id", .str "legacy-1"), ("payload", wLegacyPayload),
        ("preview", wLegacyPreview)]

/-- Witness for C7 at the concrete legacy element. -/
theorem loadPendingMemoQueue_upgrades_legacy_entries_witness :
    isPendingMemoQueueItemJs wLegacyValue = false
    ∧ (normalizePendingMemoQueueItem wEnv wLegacyValue
          = some { client_id := "legacy-1", payload := decodeMemoPayload wLegacyPayload
                   meta := { queued_at := "2026-03-01T02:00:00.000Z" } }
      ∧ loadPendingMemoQueue wEnv
          (mkStore MEMO_PENDING_QUEUE_STORAGE_KEY (.arr [wLegacyValue]))
          = [{ client_id := "legacy-1", payload := decodeMemoPayload wLegacyPayload
               meta := { queued_at := "2026-03-01T02:00:00.000Z" } }]
      ∧ (∀ w : JsValue, isPendingMemoQueueItemJs w = false →
          isLegacyPendingShapeJs w = false →
          normalizePendingMemoQueueItem wEnv w = none)) :=
  ⟨rfl,
    loadPendingMemoQueue_upgrades_legacy_entries wEnv wLegacyValue wLegacyPayload
      wLegacyPreview "legacy-1" "2026-03-01T02:00:00.000Z"
      rfl rfl rfl rfl rfl rfl rfl rfl rfl⟩

/- ## C4: the cache round-trip excludes pending records -/

theorem isMemoLogJs_encode (memo : MemoLog) :
    isMemoLogJs (encodeMemoLogForCache memo) = true := rfl

theorem decodeTags_encode : ∀ tags : List String,
    decodeTags (some (.arr (tags.map JsValue.str))) = tags
  | [] => rfl
  | t :: ts => by
    have ih := decodeTags_encode ts
    simp only [decodeTags, List.map_cons, List.filterMap_cons] at ih ⊢
    simp [ih]

theorem decodeMemoLog_encode (memo : MemoLog) :
    decodeMemoLog (encodeMemoLogForCache memo) = { memo with sync_status := none } := by
  cases hrs : memo.related_session_id with
  | none =>
    simp [decodeMemoLog, encodeMemoLogForCache, jsGetField, jsObjLookupLast,
      jsStringOr, decodeNullableString, decodeSyncStatus, decodeTags_encode, hrs]
  | some s =>
    simp [decodeMemoLog, encodeMemoLogForCache, jsGetField, jsObjLookupLast,
      jsStringOr, decodeNullableString, decodeSyncStatus, decodeTags_encode, hrs]

/-- C4: for a list mixing synced and pending records, loading the cache
right after saving it returns exactly the synced subset (as a
permutation, the load re-sorts), each record carrying sync_status
"synced"; no pending record survives the round-trip. -/
theorem loadMemoCache_saveMemoCache_roundtrip (storage : KeyValueStorage)
    (memos : List MemoLog)
    (hmix : ∀ m ∈ memos,
      m.sync_status = some .synced ∨ m.sync_status = some .pending) :
    List.Perm (loadMemoCache (saveMemoCache storage memos))
      ((memos.filter (fun m => decide (m.sync_status = some .synced))).map
        (fun m => { m with sync_status := some .synced }))
    ∧ ∀ m ∈ loadMemoCache (saveMemoCache storage memos),
        m.sync_status = some MemoSyncStatus.synced := by
  have hfilter : memos.filter (fun m => decide (m.sync_status ≠ some .pending))
      = memos.filter (fun m => decide (m.sync_status = some .synced)) := by
    apply List.filter_congr
    intro m hm
    rcases hmix m hm with h | h <;> simp [h]
  have hstored : loadStoredList (saveMemoCache storage memos)
        MEMO_CACHE_STORAGE_KEY isMemoLogJs
      = (memos.filter (fun m => decide (m.sync_status ≠ some .pending))).map
          encodeMemoLogForCache := by
    have hcell : (saveMemoCache storage memos) MEMO_CACHE_STORAGE_KEY
        = .jsonOf (.arr
            ((memos.filter (fun m => decide (m.sync_status ≠ some .pending))).map
              encodeMemoLogForCache)) := by
      simp [saveMemoCache, saveStoredList, storageSet]
    simp only [loadStoredList, hcell]
    rw [List.filter_eq_self]
    intro a ha
    obtain ⟨m, _, rfl⟩ := List.mem_map.mp ha
    exact isMemoLogJs_encode m
  have hlist : ((loadStoredList (saveMemoCache storage memos)
        MEMO_CACHE_STORAGE_KEY isMemoLogJs).map decodeMemoLog).map markSyncedMemo
      = (memos.filter (fun m => decide (m.sync_status = some .synced))).map
          (fun m => { m with sync_status := some .synced }) := by
    rw [hstored, hfilter, List.map_map, List.map_map]
    apply List.map_congr_left
    intro m _
    show markSyncedMemo (decodeMemoLog (encodeMemoLogForCache m)) = _
    rw [decodeMemoLog_encode]
    rfl
  have hload : loadMemoCache (saveMemoCache storage memos)
      = List.insertionSort memoDescRel
          (((loadStoredList (saveMemoCache storage memos) MEMO_CACHE_STORAGE_KEY
            isMemoLogJs).map decodeMemoLog).map markSyncedMemo) := rfl
  constructor
  · rw [hload, hlist]
    exact List.perm_insertionSort memoDescRel _
  · intro m hm
    rw [hload] at hm
    have hm2 := (List.perm_insertionSort memoDescRel _).mem_iff.mp hm
    rw [hlist] at hm2
    obtain ⟨m0, _, rfl⟩ := List.mem_map.mp hm2
    rfl

/-- The mixed list of the C4 witness (as in the source test "pending memo
is excluded from cache"). -/
def wCacheList : List MemoLog :=
  [wMemo "synced-1" "2026-03-01T00:00:00.000Z" (some .synced),
   wMemo "pending-1" "2026-03-01T01:00:00.000Z" (some .pending)]

/-- Witness for C4 at the concrete mixed list over an empty store. -/
theorem loadMemoCache_saveMemoCache_roundtrip_witness :
    (∀ m ∈ wCacheList,
      m.sync_status = some MemoSyncStatus.synced
        ∨ m.sync_status = some MemoSyncStatus.pending)
    ∧ (List.Perm (loadMemoCache (saveMemoCache (fun _ => .absent) wCacheList))
        ((wCacheList.filter (fun m => decide (m.sync_status = some .synced))).map
          (fun m => { m with sync_status := some .synced }))
      ∧ ∀ m ∈ loadMemoCache (saveMemoCache (fun _ => .absent) wCacheList),
          m.sync_status = some MemoSyncStatus.synced) :=
  ⟨by decide,
    loadMemoCache_saveMemoCache_roundtrip (fun _ => .absent) wCacheList (by decide)⟩

/- ## C5: mergeMemoList produces distinct ids, sorted descending -/

/-- Invariant of the insertion-ordered merge map: distinct keys, and each
stored record carries its key as id. -/
def MapInv (entries : List (String × MemoLog)) : Prop :=
  (entries.map Prod.fst).Nodup ∧ ∀ p ∈ entries, p.2.id = p.1

theorem jsMapSet_inv (entries : List (String × MemoLog)) (k : String)
    (v : MemoLog) (h : MapInv entries) (hv : v.id = k) :
    MapInv (jsMapSet entries k v) := by
  unfold jsMapSet
  by_cases hhas : jsMapHas entries k = true
  · rw [if_pos hhas]
    constructor
    · have hkeys : (entries.map (fun p => if p.1 = k then (k, v) else p)).map Prod.fst
          = entries.map Prod.fst := by
        rw [List.map_map]
        apply List.map_congr_left
        intro p _
        by_cases hp : p.1 = k
        · simp [hp]
        · simp [hp]
      rw [hkeys]
      exact h.1
    · intro p hp
      obtain ⟨q, hq, rfl⟩ := List.mem_map.mp hp
      by_cases hqk : q.1 = k
      · simp [hqk, hv]
      · simp [hqk, h.2 q hq]
  · rw [if_neg hhas]
    constructor
    · rw [List.map_append]
      simp only [List.map_cons, List.map_nil]
      rw [List.nodup_append]
      refine ⟨h.1, List.nodup_singleton k, ?_⟩
      intro a ha hb
      simp only [List.mem_singleton] at hb
      subst hb
      obtain ⟨p, hp, hpk⟩ := List.mem_map.mp ha
      apply hhas
      unfold jsMapHas
      rw [List.any_eq_true]
      exact ⟨p, hp, by simp [hpk]⟩
    · intro p hp
      rcases List.mem_append.mp hp with h1 | h2
      · exact h.2 p h1
      · simp only [List.mem_singleton] at h2
        subst h2
        exact hv

theorem foldl_jsMapSet_inv (f : MemoLog → MemoLog) (hf : ∀ m, (f m).id = m.id) :
    ∀ (memos : List MemoLog) (acc : List (String × MemoLog)), MapInv acc →
      MapInv (memos.foldl (fun a memo => jsMapSet a memo.id (f memo)) acc)
  | [], _, h => h
  | memo :: rest, acc, h =>
    foldl_jsMapSet_inv f hf rest (jsMapSet acc memo.id (f memo))
      (jsMapSet_inv acc memo.id (f memo) h (hf memo))

theorem foldl_mergePending_inv :
    ∀ (previews : List MemoLog) (acc : List (String × MemoLog)), MapInv acc →
      MapInv (previews.foldl
        (fun a memo =>
          if jsMapHas a memo.id then a
          else jsMapSet a memo.id { memo with sync_status := some .pending }) acc)
  | [], _, h => h
  | memo :: rest, acc, h => by
    apply foldl_mergePending_inv rest
    by_cases hh : jsMapHas acc memo.id = true
    · simpa only [if_pos hh] using h
    · simp only [if_neg hh]
      exact jsMapSet_inv acc memo.id _ h rfl

theorem mapInv_values_nodup (entries : List (String × MemoLog))
    (h : MapInv entries) :
    ((entries.map (fun p => p.2)).map (fun m => m.id)).Nodup := by
  rw [List.map_map]
  have heq : entries.map ((fun m : MemoLog => m.id) ∘ (fun p => p.2))
      = entries.map Prod.fst :=
    List.map_congr_left (fun p hp => h.2 p hp)
  rw [heq]
  exact h.1

/-- C5: mergeMemoList never yields two entries with the same id, and the
result is sorted by created_at descending (under the comparator order of
the source, where an entry precedes another when its timestamp is at
least as large). -/
theorem mergeMemoList_nodup_ids_and_sorted
    (serverMemos pendingPreviews : List MemoLog) :
    ((mergeMemoList serverMemos pendingPreviews).map (fun m => m.id)).Nodup
    ∧ List.Sorted memoDescRel (mergeMemoList serverMemos pendingPreviews) := by
  have hinv0 : MapInv [] := ⟨List.nodup_nil, by simp⟩
  have hinv1 := foldl_jsMapSet_inv markSyncedMemo (fun _ => rfl) serverMemos [] hinv0
  have hinv2 := foldl_mergePending_inv pendingPreviews _ hinv1
  constructor
  · have hperm := (List.perm_insertionSort memoDescRel
      ((pendingPreviews.foldl
        (fun acc memo =>
          if jsMapHas acc memo.id then acc
          else jsMapSet acc memo.id { memo with sync_status := some .pending })
        (serverMemos.foldl
          (fun acc memo => jsMapSet acc memo.id (markSyncedMemo memo)) [])).map
        (fun p => p.2))).map (fun m => m.id)
    exact hperm.nodup_iff.mpr (mapInv_values_nodup _ hinv2)
  · exact List.sorted_insertionSort memoDescRel _
